import Mathlib

/-!
Shallow embedding of the signaling relay in `src/server.js` together with the
socket.io room semantics it relies on.

The server keeps one mutable map, `rooms : Map<roomId, Set<socket.id>>`
(src/server.js line 24), and registers four handlers on each connection:
`join` (lines 29-49), `signal` (lines 52-69), `leave` (lines 71-84) and
`disconnecting` (lines 86-101).

socket.io facts the code depends on, modelled explicitly:
  * the adapter keeps its own room membership map (here the `sio` field);
    every connected socket is a member of a transport room named by its own
    id (that is why `disconnecting` skips `roomId === socket.id`);
  * `socket.join(r)` / `socket.leave(r)` mutate only the adapter map;
  * `socket.to(r).emit(e, p)` delivers to every socket in transport room `r`
    except the sender, `io.to(t).emit(e, p)` delivers to every socket in
    transport room `t` (sender included if present);
  * when a socket disconnects, the adapter drops it from every transport room
    after the `disconnecting` handler ran.

JavaScript values reaching the handlers are modelled by `JSVal` so that
truthiness tests (`if (!roomId) return`) and the destructuring
`({ roomId, targetId, data }) => ...` (which throws a TypeError on a
null/undefined payload) are captured faithfully.  Objects are modelled to
one level of nesting (field values are primitives): the relay never reads
past the top level of any payload, so deeper structure is invisible to it.
-/

/-- A primitive JavaScript value (a possible field of an event payload). -/
inductive JSPrim where
  | null : JSPrim
  | undef : JSPrim
  | bool : Bool → JSPrim
  | num : Int → JSPrim
  | str : String → JSPrim
deriving DecidableEq, Repr

/-- A JavaScript value as seen by the relay: the payloads of the inbound
`join`, `signal` and `leave` events. -/
inductive JSVal where
  | null : JSVal
  | undef : JSVal
  | bool : Bool → JSVal
  | num : Int → JSVal
  | str : String → JSVal
  | obj : List (String × JSPrim) → JSVal
deriving DecidableEq, Repr

/-- Embed a primitive into `JSVal`. -/
def JSPrim.toVal : JSPrim → JSVal
  | .null => .null
  | .undef => .undef
  | .bool b => .bool b
  | .num n => .num n
  | .str s => .str s

namespace JSVal

/-- JavaScript truthiness: `null`, `undefined`, `false`, `0` and `""` are
falsy, every other value (including every object) is truthy. -/
def truthy : JSVal → Bool
  | .null => false
  | .undef => false
  | .bool b => b
  | .num n => n != 0
  | .str s => s != ""
  | .obj _ => true

/-- Property access `v[k]` on a non-null value: objects yield the first
binding of the key (or `undefined`), primitives yield `undefined`. -/
def getField : JSVal → String → JSVal
  | .obj fields, k => (((fields.find? (fun p => p.1 = k)).map Prod.snd).getD .undef).toVal
  | _, _ => .undef

end JSVal

/-- An outbound message of the relay: recipient socket id plus the event and
payload emitted by `src/server.js`. -/
inductive OutMsg where
  /-- Event `peer-joined { socketId }`, emitted at src/server.js:44. -/
  | peerJoined (dst joined : String) : OutMsg
  /-- Event `room-info { peers }`, emitted at src/server.js:48. -/
  | roomInfo (dst : String) (peers : List String) : OutMsg
  /-- Event `signal { from, data }`, emitted at src/server.js:57 and :65. -/
  | signalMsg (dst src : String) (data : JSVal) : OutMsg
  /-- Event `peer-left { socketId }`, emitted at src/server.js:82 and :97. -/
  | peerLeft (dst left : String) : OutMsg
deriving DecidableEq, Repr

/-- Lookup in a JS `Map` (`Map.get`): the value bound to the first matching
key, if any. -/
def lookupA (m : List (JSVal × List String)) (k : JSVal) : Option (List String) :=
  ((m.find? (fun p => p.1 = k)).map Prod.snd)

/-- `Map.set`: replace the binding of `k`, or append a new one (JS `Map`
iteration preserves insertion order, with new keys at the end). -/
def updateA : List (JSVal × List String) → JSVal → List String → List (JSVal × List String)
  | [], k, v => [(k, v)]
  | (k', v') :: rest, k, v =>
    if k' = k then (k, v) :: rest else (k', v') :: updateA rest k v

/-- `Map.delete`: drop the binding of `k`. -/
def deleteA : List (JSVal × List String) → JSVal → List (JSVal × List String)
  | [], _ => []
  | (k', v') :: rest, k => if k' = k then rest else (k', v') :: deleteA rest k

/-- `Set.add`: a JS `Set` keeps insertion order and ignores duplicates. -/
def addSet (l : List String) (x : String) : List String :=
  if x ∈ l then l else l ++ [x]

/-- Members of room `k` (empty when the room is absent). -/
def membersOf (m : List (JSVal × List String)) (k : JSVal) : List String :=
  (lookupA m k).getD []

/-- `socket.join(r)` on the adapter map: add the socket to the transport
room, creating it when absent. -/
def sioJoin (sio : List (JSVal × List String)) (r : JSVal) (sid : String) :
    List (JSVal × List String) :=
  updateA sio r (addSet (membersOf sio r) sid)

/-- `socket.leave(r)` on the adapter map: remove the socket from the
transport room and drop the room when it empties; absent rooms are left
alone. -/
def sioLeave (sio : List (JSVal × List String)) (r : JSVal) (sid : String) :
    List (JSVal × List String) :=
  match lookupA sio r with
  | none => sio
  | some ms =>
    let ms' := ms.filter (fun x => x ≠ sid)
    if ms' = [] then deleteA sio r else updateA sio r ms'

/-- Adapter cleanup after a disconnect: the socket is removed from every
transport room it was in, and emptied rooms are dropped. -/
def sioRemoveAll (sio : List (JSVal × List String)) (sid : String) :
    List (JSVal × List String) :=
  sio.filterMap (fun p =>
    if sid ∈ p.2 then
      let ms := p.2.filter (fun x => x ≠ sid)
      if ms = [] then none else some (p.1, ms)
    else some p)

/-- `socket.rooms`: the transport rooms the socket currently belongs to
(this includes the room named by its own id). -/
def roomsOfSocket (sio : List (JSVal × List String)) (sid : String) : List JSVal :=
  (sio.filter (fun p => sid ∈ p.2)).map Prod.fst

/-- The relay's state: the application registry `rooms` of src/server.js:24
plus the socket.io adapter's transport-room map. -/
structure ServerState where
  rooms : List (JSVal × List String)
  sio : List (JSVal × List String)
deriving DecidableEq, Repr

/-- The state of a freshly started server. -/
def ServerState.empty : ServerState := ⟨[], []⟩

/-- A socket connects: socket.io puts it in the transport room named by its
own id. -/
def handleConnect (st : ServerState) (sid : String) : ServerState :=
  { st with sio := sioJoin st.sio (.str sid) sid }

/-- The `join` handler, src/server.js:29-49. -/
def handleJoin (st : ServerState) (sid : String) (roomId : JSVal) :
    ServerState × List OutMsg :=
  if ¬ roomId.truthy then (st, []) else
  let sio' := sioJoin st.sio roomId sid
  let room := (lookupA st.rooms roomId).getD []
  let room' := addSet room sid
  let rooms' := updateA st.rooms roomId room'
  let notified := (membersOf sio' roomId).filter (fun t => t ≠ sid)
  let existingPeers := room'.filter (fun t => t ≠ sid)
  (⟨rooms', sio'⟩,
    notified.map (fun t => OutMsg.peerJoined t sid) ++ [OutMsg.roomInfo sid existingPeers])

/-- The `signal` handler, src/server.js:52-69.  The parameter is the raw
payload: destructuring a null or undefined payload throws, which surfaces
here as `Except.error`. -/
def handleSignal (st : ServerState) (sid : String) (payload : JSVal) :
    Except String (ServerState × List OutMsg) :=
  match payload with
  | .null => .error "TypeError"
  | .undef => .error "TypeError"
  | p =>
    let roomId := p.getField "roomId"
    let targetId := p.getField "targetId"
    let data := p.getField "data"
    if ¬ roomId.truthy ∨ ¬ data.truthy then .ok (st, []) else
    if targetId.truthy then
      .ok (st, (membersOf st.sio targetId).map (fun t => OutMsg.signalMsg t sid data))
    else
      .ok (st, ((membersOf st.sio roomId).filter (fun t => t ≠ sid)).map
        (fun t => OutMsg.signalMsg t sid data))

/-- The `leave` handler, src/server.js:71-84. -/
def handleLeave (st : ServerState) (sid : String) (roomId : JSVal) :
    ServerState × List OutMsg :=
  if ¬ roomId.truthy then (st, []) else
  match lookupA st.rooms roomId with
  | none => (st, [])
  | some room =>
    let room' := room.filter (fun x => x ≠ sid)
    let sio' := sioLeave st.sio roomId sid
    if room' = [] then
      (⟨deleteA st.rooms roomId, sio'⟩, [])
    else
      (⟨updateA st.rooms roomId room', sio'⟩,
        ((membersOf sio' roomId).filter (fun t => t ≠ sid)).map
          (fun t => OutMsg.peerLeft t sid))

/-- One iteration of the `disconnecting` loop, src/server.js:88-100, over the
remaining room ids; the adapter map is only read (socket.io removes the
socket from its rooms after the handler returns). -/
def discLoop (sid : String) (sio : List (JSVal × List String)) :
    List JSVal → List (JSVal × List String) →
    List (JSVal × List String) × List OutMsg
  | [], reg => (reg, [])
  | r :: rs, reg =>
    if r = .str sid then discLoop sid sio rs reg
    else
      match lookupA reg r with
      | none => discLoop sid sio rs reg
      | some ms =>
        let ms' := ms.filter (fun x => x ≠ sid)
        let reg' := if ms' = [] then deleteA reg r else updateA reg r ms'
        let msgs :=
          if ms' = [] then ([] : List OutMsg)
          else ((membersOf sio r).filter (fun t => t ≠ sid)).map
            (fun t => OutMsg.peerLeft t sid)
        let rest := discLoop sid sio rs reg'
        (rest.1, msgs ++ rest.2)

/-- A full disconnect: the `disconnecting` handler (src/server.js:86-101)
runs over `socket.rooms`, then the adapter drops the socket everywhere. -/
def handleDisconnect (st : ServerState) (sid : String) :
    ServerState × List OutMsg :=
  let out := discLoop sid st.sio (roomsOfSocket st.sio sid) st.rooms
  (⟨out.1, sioRemoveAll st.sio sid⟩, out.2)

/-- An inbound event at the transport boundary. -/
inductive Ev where
  | connect (sid : String) : Ev
  | join (sid : String) (roomId : JSVal) : Ev
  | signal (sid : String) (payload : JSVal) : Ev
  | leave (sid : String) (roomId : JSVal) : Ev
  | disconnect (sid : String) : Ev
deriving DecidableEq, Repr

/-- State transition of one event (a handler that throws leaves the state as
it was when the exception escaped). -/
def step (st : ServerState) : Ev → ServerState
  | .connect sid => handleConnect st sid
  | .join sid r => (handleJoin st sid r).1
  | .signal sid p =>
    match handleSignal st sid p with
    | .ok out => out.1
    | .error _ => st
  | .leave sid r => (handleLeave st sid r).1
  | .disconnect sid => (handleDisconnect st sid).1

/-- Run a sequence of events from the fresh server state. -/
def runEvents (evs : List Ev) : ServerState :=
  evs.foldl step ServerState.empty

/-! ### Basic lemmas about the map and set operations -/

theorem lookupA_nil (k : JSVal) : lookupA [] k = none := rfl

theorem lookupA_cons (k' : JSVal) (v' : List String) (l : List (JSVal × List String))
    (k : JSVal) :
    lookupA ((k', v') :: l) k = if k' = k then some v' else lookupA l k := by
  by_cases h : k' = k <;> simp [lookupA, List.find?_cons, h]

theorem updateA_nil (k : JSVal) (v : List String) : updateA [] k v = [(k, v)] := rfl

theorem updateA_cons (k' : JSVal) (v' : List String) (l : List (JSVal × List String))
    (k : JSVal) (v : List String) :
    updateA ((k', v') :: l) k v =
      if k' = k then (k, v) :: l else (k', v') :: updateA l k v := rfl

theorem deleteA_cons (k' : JSVal) (v' : List String) (l : List (JSVal × List String))
    (k : JSVal) :
    deleteA ((k', v') :: l) k = if k' = k then l else (k', v') :: deleteA l k := rfl

theorem lookupA_updateA_self (l : List (JSVal × List String)) (k : JSVal)
    (v : List String) : lookupA (updateA l k v) k = some v := by
  induction l with
  | nil => simp [updateA_nil, lookupA_cons]
  | cons q rest ih =>
    obtain ⟨qk, qv⟩ := q
    by_cases h : qk = k
    · simp [updateA_cons, h, lookupA_cons]
    · simp [updateA_cons, h, lookupA_cons, ih]

theorem lookupA_updateA_ne (l : List (JSVal × List String)) (k k' : JSVal)
    (v : List String) (h : k' ≠ k) : lookupA (updateA l k v) k' = lookupA l k' := by
  induction l with
  | nil => simp [updateA_nil, lookupA_cons, Ne.symm h]
  | cons q rest ih =>
    obtain ⟨qk, qv⟩ := q
    by_cases hqk : qk = k
    · rw [updateA_cons, if_pos hqk, lookupA_cons, lookupA_cons, if_neg (Ne.symm h),
        if_neg (hqk ▸ (Ne.symm h) : ¬ qk = k')]
    · rw [updateA_cons, if_neg hqk, lookupA_cons, lookupA_cons, ih]

theorem lookupA_deleteA_ne (l : List (JSVal × List String)) (k k' : JSVal)
    (h : k' ≠ k) : lookupA (deleteA l k) k' = lookupA l k' := by
  induction l with
  | nil => rfl
  | cons q rest ih =>
    obtain ⟨qk, qv⟩ := q
    by_cases hqk : qk = k
    · rw [deleteA_cons, if_pos hqk, lookupA_cons, if_neg (hqk ▸ (Ne.symm h) : ¬ qk = k')]
    · rw [deleteA_cons, if_neg hqk, lookupA_cons, lookupA_cons, ih]

theorem lookupA_eq_none_of_not_mem_keys (l : List (JSVal × List String)) (k : JSVal)
    (h : k ∉ l.map Prod.fst) : lookupA l k = none := by
  induction l with
  | nil => rfl
  | cons q rest ih =>
    simp only [List.map_cons, List.mem_cons] at h
    push_neg at h
    rw [lookupA_cons, if_neg (Ne.symm h.1), ih h.2]

theorem lookupA_deleteA_self (l : List (JSVal × List String)) (k : JSVal)
    (hnd : (l.map Prod.fst).Nodup) : lookupA (deleteA l k) k = none := by
  induction l with
  | nil => rfl
  | cons q rest ih =>
    obtain ⟨qk, qv⟩ := q
    simp only [List.map_cons, List.nodup_cons] at hnd
    by_cases hqk : qk = k
    · rw [deleteA_cons, if_pos hqk]
      exact lookupA_eq_none_of_not_mem_keys rest k (hqk ▸ hnd.1)
    · rw [deleteA_cons, if_neg hqk, lookupA_cons, if_neg hqk, ih hnd.2]

theorem mem_updateA (l : List (JSVal × List String)) (k : JSVal) (v : List String)
    (p : JSVal × List String) (h : p ∈ updateA l k v) : p ∈ l ∨ p = (k, v) := by
  induction l with
  | nil => rw [updateA_nil] at h; simp at h; simp [h]
  | cons q rest ih =>
    obtain ⟨qk, qv⟩ := q
    by_cases hqk : qk = k
    · rw [updateA_cons, if_pos hqk] at h
      rcases List.mem_cons.mp h with h | h
      · exact Or.inr h
      · exact Or.inl (List.mem_cons_of_mem _ h)
    · rw [updateA_cons, if_neg hqk] at h
      rcases List.mem_cons.mp h with h | h
      · exact Or.inl (h ▸ List.mem_cons_self _ _)
      · rcases ih h with h' | h'
        · exact Or.inl (List.mem_cons_of_mem _ h')
        · exact Or.inr h'

theorem deleteA_sublist (l : List (JSVal × List String)) (k : JSVal) :
    (deleteA l k).Sublist l := by
  induction l with
  | nil => exact List.Sublist.refl []
  | cons q rest ih =>
    obtain ⟨qk, qv⟩ := q
    by_cases hqk : qk = k
    · rw [deleteA_cons, if_pos hqk]
      exact List.sublist_cons_self _ rest
    · rw [deleteA_cons, if_neg hqk]
      exact ih.cons₂ _

theorem mem_deleteA (l : List (JSVal × List String)) (k : JSVal)
    (p : JSVal × List String) (h : p ∈ deleteA l k) : p ∈ l :=
  (deleteA_sublist l k).mem h

theorem keys_updateA_nodup (l : List (JSVal × List String)) (k : JSVal)
    (v : List String) (hnd : (l.map Prod.fst).Nodup) :
    ((updateA l k v).map Prod.fst).Nodup := by
  induction l with
  | nil => simp [updateA_nil]
  | cons q rest ih =>
    obtain ⟨qk, qv⟩ := q
    simp only [List.map_cons, List.nodup_cons] at hnd
    by_cases hqk : qk = k
    · rw [updateA_cons, if_pos hqk]
      exact List.nodup_cons.mpr ⟨hqk ▸ hnd.1, hnd.2⟩
    · rw [updateA_cons, if_neg hqk, List.map_cons]
      refine List.nodup_cons.mpr ⟨?_, ih hnd.2⟩
      intro hmem
      rcases List.mem_map.mp hmem with ⟨p, hp, hfst⟩
      rcases mem_updateA rest k v p hp with h' | h'
      · exact hnd.1 (List.mem_map.mpr ⟨p, h', hfst⟩)
      · exact hqk (by rw [h'] at hfst; exact hfst.symm)

theorem keys_deleteA_nodup (l : List (JSVal × List String)) (k : JSVal)
    (hnd : (l.map Prod.fst).Nodup) : ((deleteA l k).map Prod.fst).Nodup :=
  ((deleteA_sublist l k).map Prod.fst).nodup hnd

theorem updateA_updateA (l : List (JSVal × List String)) (k : JSVal)
    (v w : List String) : updateA (updateA l k v) k w = updateA l k w := by
  induction l with
  | nil => simp [updateA_nil, updateA_cons]
  | cons q rest ih =>
    obtain ⟨qk, qv⟩ := q
    by_cases hqk : qk = k
    · simp [updateA_cons, hqk]
    · simp [updateA_cons, hqk, ih]

theorem updateA_self_eq (l : List (JSVal × List String)) (k : JSVal)
    (v : List String) (h : lookupA l k = some v) : updateA l k v = l := by
  induction l with
  | nil => simp [lookupA] at h
  | cons q rest ih =>
    obtain ⟨qk, qv⟩ := q
    by_cases hqk : qk = k
    · rw [lookupA_cons, if_pos hqk] at h
      have hv : qv = v := by injection h
      rw [updateA_cons, if_pos hqk, hqk, hv]
    · rw [lookupA_cons, if_neg hqk] at h
      rw [updateA_cons, if_neg hqk, ih h]

theorem mem_addSet_self (l : List String) (x : String) : x ∈ addSet l x := by
  by_cases h : x ∈ l <;> simp [addSet, h]

theorem addSet_ne_nil (l : List String) (x : String) : addSet l x ≠ [] := by
  intro hc
  have hm := mem_addSet_self l x
  rw [hc] at hm
  exact List.not_mem_nil x hm

theorem addSet_idem (l : List String) (x : String) :
    addSet (addSet l x) x = addSet l x := by
  by_cases h : x ∈ l <;> simp [addSet, h]

theorem addSet_filter_ne (l : List String) (x : String) :
    (addSet l x).filter (fun t => t ≠ x) = l.filter (fun t => t ≠ x) := by
  by_cases h : x ∈ l
  · simp [addSet, h]
  · simp [addSet, h, List.filter_append]

theorem filter_ne_of_not_mem (l : List String) (x : String) (h : x ∉ l) :
    l.filter (fun t => t ≠ x) = l :=
  List.filter_eq_self.mpr (fun a ha => by
    simp only [ne_eq, decide_eq_true_eq]
    exact fun he => h (he ▸ ha))

/-! ### Lemmas about the handlers -/

deriving instance DecidableEq for Except

theorem handleSignal_ok_state (st : ServerState) (sid : String) (p : JSVal)
    (st' : ServerState) (msgs : List OutMsg)
    (h : handleSignal st sid p = .ok (st', msgs)) : st' = st := by
  cases p <;> simp only [handleSignal] at h
  any_goals exact Except.noConfusion h
  all_goals
    split at h
    · exact (congrArg Prod.fst (Except.ok.inj h)).symm
    · split at h <;> exact (congrArg Prod.fst (Except.ok.inj h)).symm

theorem membersOf_updateA_self (l : List (JSVal × List String)) (k : JSVal)
    (v : List String) : membersOf (updateA l k v) k = v := by
  rw [membersOf, lookupA_updateA_self]
  rfl

theorem membersOf_sioJoin (sio : List (JSVal × List String)) (r : JSVal)
    (sid : String) : membersOf (sioJoin sio r sid) r = addSet (membersOf sio r) sid := by
  rw [sioJoin, membersOf_updateA_self]

theorem handleJoin_truthy (st : ServerState) (sid : String) (r : JSVal)
    (hr : r.truthy = true) :
    handleJoin st sid r =
      (⟨updateA st.rooms r (addSet (membersOf st.rooms r) sid), sioJoin st.sio r sid⟩,
        ((membersOf (sioJoin st.sio r sid) r).filter (fun t => t ≠ sid)).map
          (fun t => OutMsg.peerJoined t sid)
        ++ [OutMsg.roomInfo sid
              ((addSet (membersOf st.rooms r) sid).filter (fun t => t ≠ sid))]) := by
  unfold handleJoin
  rw [if_neg (by simp [hr])]
  rfl

theorem discLoop_lookup_own (sid : String) (sio : List (JSVal × List String))
    (rs : List JSVal) (reg : List (JSVal × List String)) :
    lookupA (discLoop sid sio rs reg).1 (.str sid) = lookupA reg (.str sid) := by
  induction rs generalizing reg with
  | nil => rfl
  | cons r rest ih =>
    have hne : ∀ h : ¬ r = JSVal.str sid, JSVal.str sid ≠ r := fun h he => h he.symm
    by_cases hr : r = .str sid
    · simp only [discLoop, if_pos hr]
      exact ih reg
    · simp only [discLoop, if_neg hr]
      cases hlk : lookupA reg r with
      | none => simp only [hlk]; exact ih reg
      | some ms =>
        simp only [hlk]
        rw [ih]
        split
        · exact lookupA_deleteA_ne _ _ _ (hne hr)
        · exact lookupA_updateA_ne _ _ _ _ (hne hr)

/-- C10: the `disconnecting` loop (src/server.js:89) skips the transport room
whose id equals the disconnecting socket's id, so a registry room named after
the socket keeps its entry (the socket is not removed, the room is neither
deleted nor notified). -/
theorem c10_own_room_skip (st : ServerState) (c : String) :
    lookupA (handleDisconnect st c).1.rooms (.str c) = lookupA st.rooms (.str c)
    ∧ (roomsOfSocket st.sio c = [.str c] → (handleDisconnect st c).2 = []) := by
  constructor
  · simpa [handleDisconnect] using
      discLoop_lookup_own c st.sio (roomsOfSocket st.sio c) st.rooms
  · intro h
    simp [handleDisconnect, h, discLoop]

/-- The state after connection `c` joined the room named by its own id. -/
def ownRoomSt : ServerState := runEvents [.connect "c", .join "c" (.str "c")]

theorem c10_own_room_skip_witness :
    roomsOfSocket ownRoomSt.sio "c" = [.str "c"]
    ∧ lookupA (handleDisconnect ownRoomSt "c").1.rooms (.str "c") =
        lookupA ownRoomSt.rooms (.str "c")
    ∧ (handleDisconnect ownRoomSt "c").2 = [] :=
  ⟨by decide, (c10_own_room_skip ownRoomSt "c").1,
    (c10_own_room_skip ownRoomSt "c").2 (by decide)⟩

/-- C9: a completed `signal` handler never mutates the state: whatever the
payload, when the handler finishes normally the state is returned untouched
(only join/leave/disconnect handling mutates the registry). -/
theorem c9_signal_pure (st : ServerState) (sid : String) (p : JSVal)
    (st' : ServerState) (msgs : List OutMsg)
    (h : handleSignal st sid p = .ok (st', msgs)) : st' = st :=
  handleSignal_ok_state st sid p st' msgs h

/-- A two-member room used to exercise the signal and join handlers. -/
def twoPeerSt : ServerState :=
  runEvents [.connect "a", .connect "b", .join "a" (.str "r"), .join "b" (.str "r")]

theorem c9_signal_pure_witness :
    handleSignal twoPeerSt "a" (.obj [("roomId", .str "r"), ("data", .str "X")]) =
      .ok (twoPeerSt, [OutMsg.signalMsg "b" "a" (.str "X")])
    ∧ twoPeerSt = twoPeerSt :=
  ⟨by decide,
    c9_signal_pure twoPeerSt "a" (.obj [("roomId", .str "r"), ("data", .str "X")])
      twoPeerSt [OutMsg.signalMsg "b" "a" (.str "X")] (by decide)⟩

/-- C6: malformed inputs are silently ignored (falsy room id on join/leave,
missing or falsy `roomId`/`data` fields on signal), except that a `signal`
event whose payload is `null` or `undefined` makes the handler throw a
TypeError while destructuring `{ roomId, targetId, data }` — contradicting
the requirement that no malformed event can crash the relay. -/
theorem c6_malformed_input (st : ServerState) (a : String) :
    handleSignal st a .null = .error "TypeError"
    ∧ handleSignal st a .undef = .error "TypeError"
    ∧ handleJoin st a (.str "") = (st, [])
    ∧ handleJoin st a .null = (st, [])
    ∧ handleJoin st a .undef = (st, [])
    ∧ handleLeave st a .undef = (st, [])
    ∧ handleLeave st a (.str "") = (st, [])
    ∧ handleSignal st a (.obj [("roomId", .str "room")]) = .ok (st, [])
    ∧ handleSignal st a (.obj [("roomId", .str "room"), ("data", .null)]) = .ok (st, [])
    ∧ handleSignal st a (.obj [("data", .str "x")]) = .ok (st, []) :=
  ⟨rfl, rfl, rfl, rfl, rfl, rfl, rfl, rfl, rfl, rfl⟩

/-- C8: at the registry level the add of `join` is idempotent — joining the
same room twice leaves the state exactly as after the first join, and the
second join's `room-info` reply carries the then-current member list without
the joiner. -/
theorem c8_join_idempotent (st : ServerState) (r : JSVal) (c : String)
    (hr : r.truthy = true) :
    (handleJoin (handleJoin st c r).1 c r).1 = (handleJoin st c r).1
    ∧ OutMsg.roomInfo c
        ((membersOf (handleJoin st c r).1.rooms r).filter (fun t => t ≠ c)) ∈
        (handleJoin (handleJoin st c r).1 c r).2 := by
  constructor
  · simp [handleJoin, hr, membersOf, lookupA_updateA_self, sioJoin, updateA_updateA,
      addSet_idem]
  · simp [handleJoin, hr, membersOf, lookupA_updateA_self, sioJoin, addSet_idem]

theorem c8_join_idempotent_witness :
    (JSVal.str "r").truthy = true
    ∧ (handleJoin (handleJoin twoPeerSt "b" (.str "r")).1 "b" (.str "r")).1 =
        (handleJoin twoPeerSt "b" (.str "r")).1
    ∧ OutMsg.roomInfo "b"
        ((membersOf (handleJoin twoPeerSt "b" (.str "r")).1.rooms (.str "r")).filter
          (fun t => t ≠ "b")) ∈
        (handleJoin (handleJoin twoPeerSt "b" (.str "r")).1 "b" (.str "r")).2 :=
  ⟨by decide, (c8_join_idempotent twoPeerSt (.str "r") "b" (by decide)).1,
    (c8_join_idempotent twoPeerSt (.str "r") "b" (by decide)).2⟩

/-- A state where "b" is the sole member of room "r" while "a" is connected
but not a member of any room. -/
def nonMemberSt : ServerState :=
  runEvents [.connect "a", .connect "b", .join "b" (.str "r")]

/-- C1 (counterexample): a `leave` for a room the leaver never joined still
broadcasts `peer-left` to the room's members — the handler only checks that
the room exists (src/server.js:73) and that it is non-empty after the
deletion (src/server.js:79), never that the leaver was a member. -/
theorem c1_counterexample :
    "a" ∉ membersOf nonMemberSt.rooms (.str "r")
    ∧ (handleLeave nonMemberSt "a" (.str "r")).2 = [OutMsg.peerLeft "b" "a"] := by
  decide

/-- C1 (amended): a `leave` by a non-member leaves the registry unchanged
(given that the room's entry, when present, is non-empty, as every reachable
registry satisfies); no message is emitted when the room is absent; but when
the room exists, `peer-left` is still broadcast to the transport room's
remaining members. -/
theorem c1_leave_nonmember (st : ServerState) (r : JSVal) (a : String)
    (hmem : a ∉ membersOf st.rooms r)
    (hne : ∀ ms, lookupA st.rooms r = some ms → ms ≠ []) :
    (handleLeave st a r).1.rooms = st.rooms
    ∧ (lookupA st.rooms r = none → (handleLeave st a r).2 = [])
    ∧ (∀ ms, r.truthy = true → lookupA st.rooms r = some ms →
        (handleLeave st a r).2 =
          ((membersOf (sioLeave st.sio r a) r).filter (fun t => t ≠ a)).map
            (fun t => OutMsg.peerLeft t a)) := by
  by_cases htr : r.truthy = true
  · cases hlk : lookupA st.rooms r with
    | none =>
      have hstep : handleLeave st a r = (st, []) := by
        unfold handleLeave
        rw [if_neg (by simp [htr])]
        simp only [hlk]
      exact ⟨by rw [hstep], fun _ => by rw [hstep], fun ms htr' hlk' =>
        Option.noConfusion hlk'⟩
    | some ms =>
      have hnotin : a ∉ ms := by
        rw [membersOf, hlk] at hmem
        exact hmem
      have hfix : ms.filter (fun x => x ≠ a) = ms := filter_ne_of_not_mem ms a hnotin
      have hms : ms ≠ [] := hne ms hlk
      have hstep : handleLeave st a r =
          (⟨updateA st.rooms r ms, sioLeave st.sio r a⟩,
            ((membersOf (sioLeave st.sio r a) r).filter (fun t => t ≠ a)).map
              (fun t => OutMsg.peerLeft t a)) := by
        unfold handleLeave
        rw [if_neg (by simp [htr])]
        simp only [hlk, hfix]
        rw [if_neg hms]
      refine ⟨?_, fun hnone => Option.noConfusion hnone, fun ms' htr' hlk' => ?_⟩
      · rw [hstep]
        exact updateA_self_eq st.rooms r ms hlk
      · rw [hstep]
  · have hstep : handleLeave st a r = (st, []) := by
      unfold handleLeave
      rw [if_pos (by simp [htr])]
    exact ⟨by rw [hstep], fun _ => by rw [hstep], fun ms htr' _ => absurd htr' htr⟩

/-- A state with a single connected socket and no rooms. -/
def idleSt : ServerState := runEvents [.connect "a"]

theorem c1_leave_nonmember_witness :
    "a" ∉ membersOf idleSt.rooms (.str "r")
    ∧ lookupA idleSt.rooms (.str "r") = none
    ∧ (handleLeave idleSt "a" (.str "r")).1.rooms = idleSt.rooms
    ∧ (handleLeave idleSt "a" (.str "r")).2 = [] := by
  have hnone : lookupA idleSt.rooms (.str "r") = none := by decide
  have hne : ∀ ms, lookupA idleSt.rooms (.str "r") = some ms → ms ≠ [] := by
    intro ms h
    rw [hnone] at h
    exact Option.noConfusion h
  exact ⟨by decide, hnone,
    (c1_leave_nonmember idleSt (.str "r") "a" (by decide) hne).1,
    (c1_leave_nonmember idleSt (.str "r") "a" (by decide) hne).2.1 hnone⟩

/-- A state where "c" has joined a room whose id coincides with connection
"b"'s identifier, so the transport room named "b" has two members. -/
def eavesdropSt : ServerState :=
  runEvents [.connect "a", .connect "b", .connect "c", .join "a" (.str "r"),
    .join "b" (.str "r"), .join "c" (.str "b")]

/-- C4 (counterexample): a targeted signal is emitted with `io.to(targetId)`
(src/server.js:57), which addresses the transport room named by the target
id; when another connection has joined a room with that name, it receives
the message too, so more than one message is delivered and one recipient is
not the target. -/
theorem c4_counterexample :
    handleSignal eavesdropSt "a"
        (.obj [("roomId", .str "r"), ("targetId", .str "b"), ("data", .str "X")]) =
      .ok (eavesdropSt,
        [OutMsg.signalMsg "b" "a" (.str "X"), OutMsg.signalMsg "c" "a" (.str "X")])
    ∧ "c" ≠ "b" := by decide

/-- C4 (amended): a targeted signal with truthy `roomId`, `data` and
`targetId` delivers the payload, relabeled with the sender, to every member
of the transport room named by `targetId` and mutates nothing; when that
room contains exactly the target connection `b` (which holds unless some
connection joined a room whose id equals `b`), exactly one message is
delivered, to `b`, regardless of `b`'s membership in the named room. -/
theorem c4_targeted_signal (st : ServerState) (a b : String) (p : JSVal)
    (hr : (p.getField "roomId").truthy = true)
    (hd : (p.getField "data").truthy = true)
    (ht : (p.getField "targetId").truthy = true)
    (hb : membersOf st.sio (p.getField "targetId") = [b]) :
    handleSignal st a p = .ok (st, [OutMsg.signalMsg b a (p.getField "data")]) := by
  cases p with
  | null => simp [JSVal.getField, JSVal.truthy] at hr
  | undef => simp [JSVal.getField, JSVal.truthy] at hr
  | bool x => simp [JSVal.getField, JSVal.truthy] at hr
  | num x => simp [JSVal.getField, JSVal.truthy] at hr
  | str s => simp [JSVal.getField, JSVal.truthy] at hr
  | obj fs => simp [handleSignal, hr, hd, ht, hb]

/-- The targeted test payload: room "r", target "b", data "X". -/
def targetedPayload : JSVal :=
  .obj [("roomId", .str "r"), ("targetId", .str "b"), ("data", .str "X")]

theorem c4_targeted_signal_witness :
    (targetedPayload.getField "roomId").truthy = true
    ∧ (targetedPayload.getField "data").truthy = true
    ∧ (targetedPayload.getField "targetId").truthy = true
    ∧ membersOf twoPeerSt.sio (targetedPayload.getField "targetId") = ["b"]
    ∧ handleSignal twoPeerSt "a" targetedPayload =
        .ok (twoPeerSt, [OutMsg.signalMsg "b" "a" (targetedPayload.getField "data")]) :=
  ⟨by decide, by decide, by decide, by decide,
    c4_targeted_signal twoPeerSt "a" "b" targetedPayload
      (by decide) (by decide) (by decide) (by decide)⟩

/-- The sockets "a" and "b" joined to a room whose id equals the live
socket "d"'s identifier. -/
def eavSt : ServerState :=
  runEvents [.connect "a", .connect "b", .connect "d", .join "a" (.str "d"),
    .join "b" (.str "d")]

/-- C5 (counterexample): the untargeted broadcast uses `socket.to(roomId)`
(src/server.js:65), which addresses the transport room named `roomId`; when
that id equals a live socket's id, the non-member socket receives the
signal too, so "exactly the other members receive it" fails. -/
theorem c5_counterexample :
    membersOf eavSt.rooms (.str "d") = ["a", "b"]
    ∧ handleSignal eavSt "a" (.obj [("roomId", .str "d"), ("data", .str "X")]) =
        .ok (eavSt,
          [OutMsg.signalMsg "d" "a" (.str "X"), OutMsg.signalMsg "b" "a" (.str "X")])
    ∧ "d" ∉ membersOf eavSt.rooms (.str "d") := by decide

/-- C5 (amended): an untargeted signal with truthy `roomId` and `data`
broadcasts the payload, relabeled with the sender, to every member of the
**transport** room named `roomId` except the sender and mutates nothing;
this is one message to each other registry member and none to anyone else
under the hypothesis `hsync` that the transport room agrees with the
registry room — a hypothesis that fails, as the counterexample shows, when
the room id names a live socket's id. -/
theorem c5_untargeted_signal (st : ServerState) (a : String) (p : JSVal)
    (hr : (p.getField "roomId").truthy = true)
    (hd : (p.getField "data").truthy = true)
    (ht : (p.getField "targetId").truthy = false)
    (hsync : membersOf st.sio (p.getField "roomId") =
      membersOf st.rooms (p.getField "roomId")) :
    handleSignal st a p =
      .ok (st, ((membersOf st.rooms (p.getField "roomId")).filter (fun t => t ≠ a)).map
        (fun t => OutMsg.signalMsg t a (p.getField "data"))) := by
  cases p with
  | null => simp [JSVal.getField, JSVal.truthy] at hr
  | undef => simp [JSVal.getField, JSVal.truthy] at hr
  | bool x => simp [JSVal.getField, JSVal.truthy] at hr
  | num x => simp [JSVal.getField, JSVal.truthy] at hr
  | str s => simp [JSVal.getField, JSVal.truthy] at hr
  | obj fs => simp [handleSignal, hr, hd, ht, hsync]

/-- A room with the three members "a", "b" and "c". -/
def threePeerSt : ServerState :=
  runEvents [.connect "a", .connect "b", .connect "c", .join "a" (.str "r"),
    .join "b" (.str "r"), .join "c" (.str "r")]

/-- The untargeted test payload: room "r", no target, data "X". -/
def untargetedPayload : JSVal := .obj [("roomId", .str "r"), ("data", .str "X")]

theorem c5_untargeted_signal_witness :
    (untargetedPayload.getField "roomId").truthy = true
    ∧ (untargetedPayload.getField "data").truthy = true
    ∧ (untargetedPayload.getField "targetId").truthy = false
    ∧ membersOf threePeerSt.sio (untargetedPayload.getField "roomId") =
        membersOf threePeerSt.rooms (untargetedPayload.getField "roomId")
    ∧ handleSignal threePeerSt "a" untargetedPayload =
        .ok (threePeerSt,
          [OutMsg.signalMsg "b" "a" (untargetedPayload.getField "data"),
            OutMsg.signalMsg "c" "a" (untargetedPayload.getField "data")]) := by
  refine ⟨by decide, by decide, by decide, by decide, ?_⟩
  have h := c5_untargeted_signal threePeerSt "a" untargetedPayload
    (by decide) (by decide) (by decide) (by decide)
  rw [h]
  decide

/-- The state with the two connected sockets "a" and "b" and no rooms. -/
def twoConnSt : ServerState := runEvents [.connect "a", .connect "b"]

/-- C3 (counterexample): `join` broadcasts `peer-joined` with
`socket.to(roomId)` (src/server.js:44), which addresses the transport room
named `roomId`; when the room id equals a live socket's id, that socket —
not a member of the (here freshly created) registry room — receives the
`peer-joined` too, so "to every other current member of r" fails. -/
theorem c3_counterexample :
    membersOf twoConnSt.rooms (.str "b") = []
    ∧ (handleJoin twoConnSt "a" (.str "b")).2 =
        [OutMsg.peerJoined "b" "a", OutMsg.roomInfo "a" []]
    ∧ "b" ∉ membersOf twoConnSt.rooms (.str "b") := by decide

/-- C3 (amended): a `join` with a truthy room id adds the joiner to the
room's member set (creating the room when absent) and replies to the joiner
with a `room-info` whose peers are exactly the members present before the
join, excluding the joiner; the `peer-joined` broadcast goes to every other
member of the **transport** room named `r`, which is exactly the other
registry members under the hypothesis `hsync` that the transport room
agrees with the registry room — a hypothesis that fails, as the
counterexample shows, when `r` names a live socket's id. -/
theorem c3_join_notifications (st : ServerState) (b : String) (r : JSVal)
    (hr : r.truthy = true)
    (hsync : membersOf st.sio r = membersOf st.rooms r) :
    b ∈ membersOf (handleJoin st b r).1.rooms r
    ∧ membersOf (handleJoin st b r).1.rooms r = addSet (membersOf st.rooms r) b
    ∧ (handleJoin st b r).2 =
        ((membersOf st.rooms r).filter (fun t => t ≠ b)).map
          (fun t => OutMsg.peerJoined t b)
        ++ [OutMsg.roomInfo b ((membersOf st.rooms r).filter (fun t => t ≠ b))] := by
  have h := handleJoin_truthy st b r hr
  refine ⟨?_, ?_, ?_⟩
  · rw [h]
    show b ∈ membersOf (updateA st.rooms r (addSet (membersOf st.rooms r) b)) r
    rw [membersOf_updateA_self]
    exact mem_addSet_self _ b
  · rw [h]
    show membersOf (updateA st.rooms r (addSet (membersOf st.rooms r) b)) r = _
    rw [membersOf_updateA_self]
  · rw [h]
    show ((membersOf (sioJoin st.sio r b) r).filter (fun t => t ≠ b)).map
          (fun t => OutMsg.peerJoined t b)
        ++ [OutMsg.roomInfo b ((addSet (membersOf st.rooms r) b).filter (fun t => t ≠ b))]
        = _
    rw [membersOf_sioJoin, hsync, addSet_filter_ne]

/-- The state in which "a" alone occupies room "r" and "b" is connected. -/
def onePeerSt : ServerState :=
  runEvents [.connect "a", .connect "b", .join "a" (.str "r")]

theorem c3_join_notifications_witness :
    (JSVal.str "r").truthy = true
    ∧ membersOf onePeerSt.sio (.str "r") = membersOf onePeerSt.rooms (.str "r")
    ∧ "b" ∈ membersOf (handleJoin onePeerSt "b" (.str "r")).1.rooms (.str "r")
    ∧ membersOf (handleJoin onePeerSt "b" (.str "r")).1.rooms (.str "r") =
        addSet (membersOf onePeerSt.rooms (.str "r")) "b"
    ∧ (handleJoin onePeerSt "b" (.str "r")).2 =
        [OutMsg.peerJoined "a" "b", OutMsg.roomInfo "b" ["a"]] := by
  have h := c3_join_notifications onePeerSt "b" (.str "r") (by decide) (by decide)
  refine ⟨by decide, by decide, h.1, h.2.1, ?_⟩
  rw [h.2.2]
  decide

/-- The registry invariant: every room present in the registry has at least
one member. -/
def RoomsNonempty (st : ServerState) : Prop := ∀ p ∈ st.rooms, p.2 ≠ []

theorem discLoop_rooms_nonempty (sid : String) (sio : List (JSVal × List String))
    (rs : List JSVal) (reg : List (JSVal × List String))
    (h : ∀ p ∈ reg, p.2 ≠ []) :
    ∀ p ∈ (discLoop sid sio rs reg).1, p.2 ≠ [] := by
  induction rs generalizing reg with
  | nil => exact h
  | cons r rest ih =>
    by_cases hr : r = .str sid
    · simp only [discLoop, if_pos hr]
      exact ih reg h
    · simp only [discLoop, if_neg hr]
      cases hlk : lookupA reg r with
      | none =>
        simp only [hlk]
        exact ih reg h
      | some ms =>
        simp only [hlk]
        by_cases hemp : ms.filter (fun x => x ≠ sid) = []
        · rw [if_pos hemp]
          refine ih (deleteA reg r) (fun p hp => h p (mem_deleteA reg r p hp))
        · rw [if_neg hemp]
          refine ih (updateA reg r (ms.filter (fun x => x ≠ sid))) (fun p hp => ?_)
          rcases mem_updateA reg r _ p hp with h' | h'
          · exact h p h'
          · rw [h']
            exact hemp

theorem step_rooms_nonempty (st : ServerState) (e : Ev)
    (h : RoomsNonempty st) : RoomsNonempty (step st e) := by
  cases e with
  | connect sid => exact h
  | join sid r =>
    by_cases htr : r.truthy = true
    · show ∀ p ∈ (handleJoin st sid r).1.rooms, p.2 ≠ []
      rw [handleJoin_truthy st sid r htr]
      intro p hp
      rcases mem_updateA st.rooms r _ p hp with h' | h'
      · exact h p h'
      · rw [h']
        exact addSet_ne_nil _ sid
    · show ∀ p ∈ (handleJoin st sid r).1.rooms, p.2 ≠ []
      unfold handleJoin
      rw [if_pos (by simp [htr])]
      exact h
  | signal sid p =>
    show RoomsNonempty (match handleSignal st sid p with
      | .ok out => out.1
      | .error _ => st)
    cases hs : handleSignal st sid p with
    | ok out => exact (handleSignal_ok_state st sid p out.1 out.2 (by rw [hs])) ▸ h
    | error _ => exact h
  | leave sid r =>
    by_cases htr : r.truthy = true
    · cases hlk : lookupA st.rooms r with
      | none =>
        show ∀ p ∈ (handleLeave st sid r).1.rooms, p.2 ≠ []
        unfold handleLeave
        rw [if_neg (by simp [htr])]
        simp only [hlk]
        exact h
      | some ms =>
        show ∀ p ∈ (handleLeave st sid r).1.rooms, p.2 ≠ []
        unfold handleLeave
        rw [if_neg (by simp [htr])]
        simp only [hlk]
        by_cases hemp : ms.filter (fun x => x ≠ sid) = []
        · rw [if_pos hemp]
          exact fun p hp => h p (mem_deleteA st.rooms r p hp)
        · rw [if_neg hemp]
          intro p hp
          rcases mem_updateA st.rooms r _ p hp with h' | h'
          · exact h p h'
          · rw [h']
            exact hemp
    · show ∀ p ∈ (handleLeave st sid r).1.rooms, p.2 ≠ []
      unfold handleLeave
      rw [if_pos (by simp [htr])]
      exact h
  | disconnect sid =>
    exact discLoop_rooms_nonempty sid st.sio (roomsOfSocket st.sio sid) st.rooms h

/-- C2: after any sequence of events from the fresh server, every room in
the registry has at least one member (a room emptied by leave or disconnect
is deleted on the spot), and a join to a room id absent from the registry
creates a fresh room containing exactly the joiner. -/
theorem c2_registry_no_empty_rooms (evs : List Ev) :
    RoomsNonempty (runEvents evs)
    ∧ (∀ st : ServerState, ∀ r : JSVal, ∀ b : String, r.truthy = true →
        lookupA st.rooms r = none →
        lookupA (handleJoin st b r).1.rooms r = some [b]) := by
  constructor
  · have hrun : ∀ st, RoomsNonempty st → RoomsNonempty (List.foldl step st evs) := by
      induction evs with
      | nil => exact fun st h => h
      | cons e rest ih => exact fun st h => ih (step st e) (step_rooms_nonempty st e h)
    exact hrun ServerState.empty (fun p hp => absurd hp (List.not_mem_nil p))
  · intro st r b htr hnone
    rw [handleJoin_truthy st b r htr]
    show lookupA (updateA st.rooms r (addSet (membersOf st.rooms r) b)) r = _
    rw [lookupA_updateA_self, membersOf, hnone]
    rfl

/-- The single join demonstrating both parts of the invariant theorem. -/
def demoEvs : List Ev := [.connect "a", .join "a" (.str "r")]

theorem c2_registry_no_empty_rooms_witness :
    ((.str "r", ["a"]) ∈ (runEvents demoEvs).rooms ∧ (["a"] : List String) ≠ [])
    ∧ ((JSVal.str "q").truthy = true
        ∧ lookupA (runEvents demoEvs).rooms (.str "q") = none
        ∧ lookupA (handleJoin (runEvents demoEvs) "b" (.str "q")).1.rooms (.str "q") =
            some ["b"]) :=
  ⟨⟨by decide, (c2_registry_no_empty_rooms demoEvs).1 (.str "r", ["a"]) (by decide)⟩,
    ⟨by decide, by decide,
      (c2_registry_no_empty_rooms demoEvs).2 (runEvents demoEvs) (.str "q") "b"
        (by decide) (by decide)⟩⟩

theorem mem_of_lookupA_eq_some (l : List (JSVal × List String)) (k : JSVal)
    (v : List String) (h : lookupA l k = some v) : (k, v) ∈ l := by
  rw [lookupA] at h
  rcases Option.map_eq_some'.mp h with ⟨p, hp, hv⟩
  have hk : p.1 = k := by
    have := List.find?_some hp
    simpa using this
  have hmem := List.mem_of_find?_eq_some hp
  have hpe : p = (k, v) := by
    cases p
    simp_all
  exact hpe ▸ hmem

theorem lookupA_eq_some_of_mem_nodup (l : List (JSVal × List String)) (k : JSVal)
    (v : List String) (hnd : (l.map Prod.fst).Nodup) (h : (k, v) ∈ l) :
    lookupA l k = some v := by
  induction l with
  | nil => exact absurd h (List.not_mem_nil _)
  | cons q rest ih =>
    obtain ⟨qk, qv⟩ := q
    simp only [List.map_cons, List.nodup_cons] at hnd
    rcases List.mem_cons.mp h with h' | h'
    · obtain ⟨hk, hv⟩ : qk = k ∧ qv = v := by
        have h1 := congrArg Prod.fst h'.symm
        have h2 := congrArg Prod.snd h'.symm
        exact ⟨h1, h2⟩
      rw [lookupA_cons, if_pos hk, hv]
    · have hkq : ¬ qk = k := by
        intro hkq
        exact hnd.1 (List.mem_map.mpr ⟨(k, v), h', hkq.symm⟩)
      rw [lookupA_cons, if_neg hkq, ih hnd.2 h']

theorem lookupA_ne_none_of_mem (l : List (JSVal × List String)) (k : JSVal)
    (v : List String) (h : (k, v) ∈ l) : lookupA l k ≠ none := by
  induction l with
  | nil => exact absurd h (List.not_mem_nil _)
  | cons q rest ih =>
    obtain ⟨qk, qv⟩ := q
    rcases List.mem_cons.mp h with h' | h'
    · have hk : qk = k := congrArg Prod.fst h'.symm
      rw [lookupA_cons, if_pos hk]
      exact Option.noConfusion
    · by_cases hkq : qk = k
      · rw [lookupA_cons, if_pos hkq]
        exact Option.noConfusion
      · rw [lookupA_cons, if_neg hkq]
        exact ih h'

theorem mem_roomsOfSocket (sio : List (JSVal × List String)) (sid : String)
    (r : JSVal) :
    r ∈ roomsOfSocket sio sid ↔ ∃ ms, (r, ms) ∈ sio ∧ sid ∈ ms := by
  rw [roomsOfSocket]
  constructor
  · intro h
    rcases List.mem_map.mp h with ⟨p, hp, hfst⟩
    rcases List.mem_filter.mp hp with ⟨hmem, hin⟩
    exact ⟨p.2, by rw [← hfst]; exact hmem, by simpa using hin⟩
  · rintro ⟨ms, hmem, hin⟩
    exact List.mem_map.mpr ⟨(r, ms), List.mem_filter.mpr ⟨hmem, by simpa using hin⟩, rfl⟩

theorem roomsOfSocket_nodup (sio : List (JSVal × List String)) (sid : String)
    (hnd : (sio.map Prod.fst).Nodup) : (roomsOfSocket sio sid).Nodup := by
  rw [roomsOfSocket]
  exact ((List.filter_sublist sio).map Prod.fst).nodup hnd

/-- The registry value of one room after the `disconnecting` loop body ran on
it: the socket removed, the entry dropped when that empties it. -/
def removeMember : Option (List String) → String → Option (List String)
  | none, _ => none
  | some ms, c =>
    if ms.filter (fun x => x ≠ c) = [] then none else some (ms.filter (fun x => x ≠ c))

/-- The messages one room contributes to the `disconnecting` loop. -/
def roomMsgs (sid : String) (sio reg : List (JSVal × List String)) (r : JSVal) :
    List OutMsg :=
  if r = .str sid then [] else
  match lookupA reg r with
  | none => []
  | some ms =>
    if ms.filter (fun x => x ≠ sid) = [] then []
    else ((membersOf sio r).filter (fun t => t ≠ sid)).map (fun t => OutMsg.peerLeft t sid)

theorem discLoop_lookup (sid : String) (sio : List (JSVal × List String))
    (rs : List JSVal) (reg : List (JSVal × List String)) (r : JSVal) :
    rs.Nodup → (reg.map Prod.fst).Nodup →
    lookupA (discLoop sid sio rs reg).1 r =
      (if r ∈ rs ∧ r ≠ .str sid then removeMember (lookupA reg r) sid
       else lookupA reg r) := by
  induction rs generalizing reg with
  | nil =>
    intro _ _
    simp [discLoop]
  | cons r0 rest ih =>
    intro hnd hkeys
    rw [List.nodup_cons] at hnd
    by_cases h0 : r0 = .str sid
    · simp only [discLoop, if_pos h0]
      rw [ih reg hnd.2 hkeys]
      by_cases hc : r ∈ rest ∧ r ≠ .str sid
      · rw [if_pos hc, if_pos ⟨List.mem_cons_of_mem _ hc.1, hc.2⟩]
      · rw [if_neg hc, if_neg ?_]
        rintro ⟨hm, hne⟩
        rcases List.mem_cons.mp hm with he | hm'
        · exact hne (h0 ▸ he)
        · exact hc ⟨hm', hne⟩
    · simp only [discLoop, if_neg h0]
      cases hlk : lookupA reg r0 with
      | none =>
        simp only [hlk]
        rw [ih reg hnd.2 hkeys]
        by_cases hc : r ∈ rest ∧ r ≠ .str sid
        · rw [if_pos hc, if_pos ⟨List.mem_cons_of_mem _ hc.1, hc.2⟩]
        · by_cases hr0r : r = r0
          · subst hr0r
            rw [if_neg hc, if_pos ⟨List.mem_cons_self _ _, fun he => h0 he⟩, hlk]
            rfl
          · rw [if_neg hc, if_neg ?_]
            rintro ⟨hm, hne⟩
            rcases List.mem_cons.mp hm with he | hm'
            · exact hr0r he
            · exact hc ⟨hm', hne⟩
      | some ms =>
        simp only [hlk]
        by_cases hemp : ms.filter (fun x => x ≠ sid) = []
        · rw [if_pos hemp, ih _ hnd.2 (keys_deleteA_nodup reg r0 hkeys)]
          by_cases hc : r ∈ rest ∧ r ≠ .str sid
          · have hr0r : r ≠ r0 := fun he => hnd.1 (he ▸ hc.1)
            rw [if_pos hc, if_pos ⟨List.mem_cons_of_mem _ hc.1, hc.2⟩,
              lookupA_deleteA_ne reg r0 r hr0r]
          · by_cases hr0r : r = r0
            · subst hr0r
              rw [if_neg hc, if_pos ⟨List.mem_cons_self _ _, fun he => h0 he⟩, hlk,
                lookupA_deleteA_self reg r hkeys]
              rw [removeMember, if_pos hemp]
            · rw [if_neg hc, if_neg ?_, lookupA_deleteA_ne reg r0 r hr0r]
              rintro ⟨hm, hne⟩
              rcases List.mem_cons.mp hm with he | hm'
              · exact hr0r he
              · exact hc ⟨hm', hne⟩
        · rw [if_neg hemp, ih _ hnd.2 (keys_updateA_nodup reg r0 _ hkeys)]
          by_cases hc : r ∈ rest ∧ r ≠ .str sid
          · have hr0r : r ≠ r0 := fun he => hnd.1 (he ▸ hc.1)
            rw [if_pos hc, if_pos ⟨List.mem_cons_of_mem _ hc.1, hc.2⟩,
              lookupA_updateA_ne reg r0 r _ hr0r]
          · by_cases hr0r : r = r0
            · subst hr0r
              rw [if_neg hc, if_pos ⟨List.mem_cons_self _ _, fun he => h0 he⟩, hlk,
                lookupA_updateA_self]
              rw [removeMember, if_neg hemp]
            · rw [if_neg hc, if_neg ?_, lookupA_updateA_ne reg r0 r _ hr0r]
              rintro ⟨hm, hne⟩
              rcases List.mem_cons.mp hm with he | hm'
              · exact hr0r he
              · exact hc ⟨hm', hne⟩

theorem roomMsgs_congr (sid : String) (sio reg reg' : List (JSVal × List String))
    (r : JSVal) (h : lookupA reg' r = lookupA reg r) :
    roomMsgs sid sio reg' r = roomMsgs sid sio reg r := by
  rw [roomMsgs, roomMsgs, h]

theorem discLoop_msgs (sid : String) (sio : List (JSVal × List String))
    (rs : List JSVal) (reg : List (JSVal × List String)) :
    rs.Nodup →
    (discLoop sid sio rs reg).2 = (rs.map (roomMsgs sid sio reg)).flatten := by
  induction rs generalizing reg with
  | nil =>
    intro _
    rfl
  | cons r0 rest ih =>
    intro hnd
    rw [List.nodup_cons] at hnd
    by_cases h0 : r0 = .str sid
    · simp only [discLoop, if_pos h0]
      rw [ih reg hnd.2, List.map_cons, List.flatten_cons]
      have hr0 : roomMsgs sid sio reg r0 = [] := by
        rw [roomMsgs, if_pos h0]
      rw [hr0, List.nil_append]
    · simp only [discLoop, if_neg h0]
      cases hlk : lookupA reg r0 with
      | none =>
        simp only [hlk]
        rw [ih reg hnd.2, List.map_cons, List.flatten_cons]
        have hr0 : roomMsgs sid sio reg r0 = [] := by
          simp only [roomMsgs, if_neg h0, hlk]
        rw [hr0, List.nil_append]
      | some ms =>
        simp only [hlk]
        by_cases hemp : ms.filter (fun x => x ≠ sid) = []
        · rw [if_pos hemp, if_pos hemp, ih _ hnd.2, List.map_cons, List.flatten_cons]
          have hr0 : roomMsgs sid sio reg r0 = [] := by
            simp only [roomMsgs, if_neg h0, hlk, if_pos hemp]
          rw [hr0, List.nil_append, List.nil_append]
          exact congrArg List.flatten (List.map_congr_left (fun x hx =>
            roomMsgs_congr sid sio reg (deleteA reg r0) x
              (lookupA_deleteA_ne reg r0 x (fun he => hnd.1 (he ▸ hx)))))
        · rw [if_neg hemp, if_neg hemp, ih _ hnd.2, List.map_cons, List.flatten_cons]
          have hr0 : roomMsgs sid sio reg r0 =
              ((membersOf sio r0).filter (fun t => t ≠ sid)).map
                (fun t => OutMsg.peerLeft t sid) := by
            simp only [roomMsgs, if_neg h0, hlk, if_neg hemp]
          rw [hr0]
          refine congrArg _ (congrArg List.flatten (List.map_congr_left (fun x hx =>
            roomMsgs_congr sid sio reg
              (updateA reg r0 (ms.filter (fun x => x ≠ sid))) x
              (lookupA_updateA_ne reg r0 x _ (fun he => hnd.1 (he ▸ hx))))))

theorem sum_map_ite (l : List JSVal) (P : JSVal → Prop) [DecidablePred P] :
    (l.map (fun r => if P r then 1 else 0)).sum = (l.filter (fun r => decide (P r))).length := by
  induction l with
  | nil => rfl
  | cons x xs ih =>
    by_cases h : P x
    · simp only [List.map_cons, List.sum_cons, List.filter_cons, h, if_true,
        decide_true_eq_true, List.length_cons, ih]
      omega
    · simp only [List.map_cons, List.sum_cons, List.filter_cons, h, if_false, ih]
      simp only [decide_eq_true_eq, h, if_false]
      omega

theorem peerLeft_left_injective (c : String) :
    Function.Injective (fun t => OutMsg.peerLeft t c) := by
  intro a b h
  injection h with h1 _

/-- C7 (amended): on disconnect the connection is removed from every
registry room it belongs to EXCEPT a room whose id equals its own
identifier, whose registry entry stays entirely unchanged (the loop skip of
src/server.js:89, see C10); every other affected room keeps exactly its
remaining members, or is deleted when emptied; and every other connection
`m` receives exactly one `peer-left` carrying the disconnecting id per
room other than that own-id room it shared with it (so emptied rooms
produce no notification).  The explicit hypotheses: the two maps'
keys and the transport member lists hold no duplicates (`hsk`, `hrk`,
`hmnd`), and the transport rooms the connection belongs to agree with the
registry (`hsync`, `hsync2`). -/
theorem c7_disconnect_cleanup (st : ServerState) (c : String)
    (hsk : (st.sio.map Prod.fst).Nodup)
    (hrk : (st.rooms.map Prod.fst).Nodup)
    (hmnd : ∀ p ∈ st.sio, p.2.Nodup)
    (hsync : ∀ r ∈ roomsOfSocket st.sio c, r ≠ .str c →
      membersOf st.sio r = membersOf st.rooms r)
    (hsync2 : ∀ p ∈ st.rooms, c ∈ p.2 → c ∈ membersOf st.sio p.1) :
    (∀ r, r ≠ .str c → c ∉ membersOf (handleDisconnect st c).1.rooms r)
    ∧ lookupA (handleDisconnect st c).1.rooms (.str c) = lookupA st.rooms (.str c)
    ∧ (∀ r ms, r ≠ .str c → lookupA st.rooms r = some ms → c ∈ ms →
        lookupA (handleDisconnect st c).1.rooms r =
          (if ms.filter (fun x => x ≠ c) = [] then none
           else some (ms.filter (fun x => x ≠ c))))
    ∧ (∀ m, m ≠ c →
        (handleDisconnect st c).2.count (OutMsg.peerLeft m c) =
          (st.rooms.filter
            (fun p => p.1 ≠ JSVal.str c ∧ c ∈ p.2 ∧ m ∈ p.2)).length) := by
  have hrsnd : (roomsOfSocket st.sio c).Nodup := roomsOfSocket_nodup st.sio c hsk
  have hreg : ∀ r, lookupA (handleDisconnect st c).1.rooms r =
      (if r ∈ roomsOfSocket st.sio c ∧ r ≠ .str c
       then removeMember (lookupA st.rooms r) c else lookupA st.rooms r) :=
    fun r => discLoop_lookup c st.sio (roomsOfSocket st.sio c) st.rooms r hrsnd hrk
  have hfwd : ∀ r, c ∈ membersOf st.rooms r → r ∈ roomsOfSocket st.sio c := by
    intro r hc
    cases hlk : lookupA st.rooms r with
    | none =>
      rw [membersOf, hlk] at hc
      exact absurd hc (List.not_mem_nil c)
    | some ms =>
      rw [membersOf, hlk] at hc
      have hmem := mem_of_lookupA_eq_some st.rooms r ms hlk
      have hcs : c ∈ membersOf st.sio r := hsync2 (r, ms) hmem hc
      cases hw : lookupA st.sio r with
      | none =>
        rw [membersOf, hw] at hcs
        exact absurd hcs (List.not_mem_nil c)
      | some w =>
        rw [membersOf, hw] at hcs
        exact (mem_roomsOfSocket st.sio c r).mpr
          ⟨w, mem_of_lookupA_eq_some st.sio r w hw, hcs⟩
  have hbwd : ∀ r, r ∈ roomsOfSocket st.sio c → r ≠ .str c →
      c ∈ membersOf st.rooms r := by
    intro r hr hne
    rcases (mem_roomsOfSocket st.sio c r).mp hr with ⟨w, hw, hcw⟩
    have hlkw : lookupA st.sio r = some w := lookupA_eq_some_of_mem_nodup st.sio r w hsk hw
    have hcs : c ∈ membersOf st.sio r := by
      rw [membersOf, hlkw]
      exact hcw
    rw [hsync r hr hne] at hcs
    exact hcs
  refine ⟨?_, ?_, ?_, ?_⟩
  · intro r h0
    by_cases hin : r ∈ roomsOfSocket st.sio c
    · rw [membersOf, hreg, if_pos ⟨hin, h0⟩]
      cases hlk : lookupA st.rooms r with
      | none => exact List.not_mem_nil c
      | some ms =>
        rw [removeMember]
        by_cases hemp : ms.filter (fun x => x ≠ c) = []
        · rw [if_pos hemp]
          exact List.not_mem_nil c
        · rw [if_neg hemp]
          intro hc
          have hc' : c ∈ ms.filter (fun x => x ≠ c) := hc
          have := List.mem_filter.mp hc'
          simp at this
    · rw [membersOf, hreg, if_neg (by rintro ⟨h1, _⟩; exact hin h1)]
      intro hc
      exact hin (hfwd r (by rw [membersOf]; exact hc))
  · rw [hreg, if_neg (by rintro ⟨_, hx⟩; exact hx rfl)]
  · intro r ms hne hlk hcm
    have hin : r ∈ roomsOfSocket st.sio c :=
      hfwd r (by rw [membersOf, hlk]; exact hcm)
    rw [hreg, if_pos ⟨hin, hne⟩, hlk]
    rfl
  · intro m hm
    have hmsgs : (handleDisconnect st c).2 =
        ((roomsOfSocket st.sio c).map (roomMsgs c st.sio st.rooms)).flatten :=
      discLoop_msgs c st.sio (roomsOfSocket st.sio c) st.rooms hrsnd
    rw [hmsgs, List.count_flatten, List.map_map]
    have hpt : ∀ r ∈ roomsOfSocket st.sio c,
        (List.count (OutMsg.peerLeft m c) ∘ roomMsgs c st.sio st.rooms) r =
          (if r ≠ JSVal.str c ∧ c ∈ membersOf st.rooms r ∧
            m ∈ membersOf st.rooms r then 1 else 0) := by
      intro r hr
      show List.count (OutMsg.peerLeft m c) (roomMsgs c st.sio st.rooms r) = _
      by_cases h0 : r = .str c
      · rw [roomMsgs, if_pos h0, if_neg (by rintro ⟨hx, _⟩; exact hx h0)]
        rfl
      · have hcm : c ∈ membersOf st.rooms r := hbwd r hr h0
        cases hlk : lookupA st.rooms r with
        | none =>
          rw [membersOf, hlk] at hcm
          exact absurd hcm (List.not_mem_nil c)
        | some ms =>
          have hmem : membersOf st.rooms r = ms := by rw [membersOf, hlk]; rfl
          have hcm' : c ∈ ms := hmem ▸ hcm
          have hsio : membersOf st.sio r = ms := by rw [hsync r hr h0, hmem]
          rw [roomMsgs, if_neg h0]
          simp only [hlk]
          by_cases hemp : ms.filter (fun x => x ≠ c) = []
          · rw [if_pos hemp, if_neg ?_]
            · rfl
            · rintro ⟨_, _, hmm⟩
              rw [hmem] at hmm
              have hmf : m ∈ ms.filter (fun x => x ≠ c) :=
                List.mem_filter.mpr ⟨hmm, by simp [hm]⟩
              rw [hemp] at hmf
              exact absurd hmf (List.not_mem_nil m)
          · rw [if_neg hemp, hsio]
            have hmsnd : ms.Nodup := by
              cases hwk : lookupA st.sio r with
              | none =>
                rw [membersOf, hwk] at hsio
                rw [← hsio] at hcm'
                exact absurd hcm' (List.not_mem_nil c)
              | some w =>
                rw [membersOf, hwk] at hsio
                have hwmem := mem_of_lookupA_eq_some st.sio r w hwk
                have hwnd := hmnd (r, w) hwmem
                exact hsio ▸ hwnd
            have hfilnd : (ms.filter (fun x => x ≠ c)).Nodup := hmsnd.filter _
            have hcmap := List.count_map_of_injective (ms.filter (fun x => x ≠ c))
              (fun t => OutMsg.peerLeft t c) (peerLeft_left_injective c) m
            rw [hcmap, List.count_eq_of_nodup hfilnd, hmem]
            by_cases hmm : m ∈ ms
            · rw [if_pos (List.mem_filter.mpr ⟨hmm, by simp [hm]⟩),
                if_pos ⟨h0, hcm', hmm⟩]
            · rw [if_neg (fun hx => hmm (List.mem_filter.mp hx).1),
                if_neg (fun hx => hmm hx.2.2)]
    have hsum := sum_map_ite (roomsOfSocket st.sio c)
      (fun r => r ≠ JSVal.str c ∧ c ∈ membersOf st.rooms r ∧ m ∈ membersOf st.rooms r)
    rw [List.map_congr_left hpt, hsum]
    have hAnd : ((roomsOfSocket st.sio c).filter
        (fun r => decide (r ≠ JSVal.str c ∧ c ∈ membersOf st.rooms r ∧
          m ∈ membersOf st.rooms r))).Nodup := hrsnd.filter _
    have hBnd : ((st.rooms.filter
        (fun p => p.1 ≠ JSVal.str c ∧ c ∈ p.2 ∧ m ∈ p.2)).map Prod.fst).Nodup :=
      ((List.filter_sublist st.rooms).map Prod.fst).nodup hrk
    have hmemiff : ∀ x,
        x ∈ (roomsOfSocket st.sio c).filter
          (fun r => decide (r ≠ JSVal.str c ∧ c ∈ membersOf st.rooms r ∧
            m ∈ membersOf st.rooms r)) ↔
        x ∈ (st.rooms.filter
          (fun p => p.1 ≠ JSVal.str c ∧ c ∈ p.2 ∧ m ∈ p.2)).map Prod.fst := by
      intro x
      rw [List.mem_filter, List.mem_map]
      constructor
      · rintro ⟨hxrs, hP⟩
        rw [decide_eq_true_eq] at hP
        obtain ⟨hne, hc, hmx⟩ := hP
        cases hlk : lookupA st.rooms x with
        | none =>
          rw [membersOf, hlk] at hc
          exact absurd hc (List.not_mem_nil c)
        | some ms =>
          have hc' : c ∈ ms := by rw [membersOf, hlk] at hc; exact hc
          have hm' : m ∈ ms := by rw [membersOf, hlk] at hmx; exact hmx
          exact ⟨(x, ms),
            List.mem_filter.mpr
              ⟨mem_of_lookupA_eq_some st.rooms x ms hlk, by simp [hne, hc', hm']⟩, rfl⟩
      · rintro ⟨p, hp, hfst⟩
        rcases List.mem_filter.mp hp with ⟨hpmem, hpc⟩
        rw [decide_eq_true_eq] at hpc
        have hlkp : lookupA st.rooms x = some p.2 := by
          rw [← hfst]
          exact lookupA_eq_some_of_mem_nodup st.rooms p.1 p.2 hrk hpmem
        have hne : x ≠ .str c := hfst ▸ hpc.1
        have hcx : c ∈ membersOf st.rooms x := by rw [membersOf, hlkp]; exact hpc.2.1
        have hmxx : m ∈ membersOf st.rooms x := by rw [membersOf, hlkp]; exact hpc.2.2
        refine ⟨hfwd x hcx, ?_⟩
        rw [decide_eq_true_eq]
        exact ⟨hne, hcx, hmxx⟩
    have hperm := (List.perm_ext_iff_of_nodup hAnd hBnd).mpr hmemiff
    rw [hperm.length_eq, List.length_map]

/-- C7 (counterexample): a connection that is a member of a room whose id
equals its own identifier is NOT removed from that room on disconnect — the
loop at src/server.js:89 skips it — so "removes c from every room it
belongs to" fails as a universal statement. -/
theorem c7_counterexample :
    "c" ∈ membersOf ownRoomSt.rooms (.str "c")
    ∧ "c" ∈ membersOf (handleDisconnect ownRoomSt "c").1.rooms (.str "c")
    ∧ lookupA (handleDisconnect ownRoomSt "c").1.rooms (.str "c") = some ["c"] := by
  decide

/-- Connection "c" is simultaneously a member of the room named by its own
id, of room "r1" (shared with "a") and of room "r2" (alone) — the except
clause's scenario together with a notified and an emptied room. -/
def exceptSt : ServerState :=
  runEvents [.connect "a", .connect "c", .join "c" (.str "c"),
    .join "a" (.str "r1"), .join "c" (.str "r1"), .join "c" (.str "r2")]

theorem c7_disconnect_cleanup_witness :
    (exceptSt.sio.map Prod.fst).Nodup
    ∧ (exceptSt.rooms.map Prod.fst).Nodup
    ∧ (∀ p ∈ exceptSt.sio, p.2.Nodup)
    ∧ (∀ r ∈ roomsOfSocket exceptSt.sio "c", r ≠ .str "c" →
        membersOf exceptSt.sio r = membersOf exceptSt.rooms r)
    ∧ (∀ p ∈ exceptSt.rooms, "c" ∈ p.2 → "c" ∈ membersOf exceptSt.sio p.1)
    ∧ ((∀ r, r ≠ .str "c" →
          "c" ∉ membersOf (handleDisconnect exceptSt "c").1.rooms r)
        ∧ lookupA (handleDisconnect exceptSt "c").1.rooms (.str "c") =
            lookupA exceptSt.rooms (.str "c")
        ∧ (∀ r ms, r ≠ .str "c" → lookupA exceptSt.rooms r = some ms → "c" ∈ ms →
            lookupA (handleDisconnect exceptSt "c").1.rooms r =
              (if ms.filter (fun x => x ≠ "c") = [] then none
               else some (ms.filter (fun x => x ≠ "c"))))
        ∧ (∀ m, m ≠ "c" →
            (handleDisconnect exceptSt "c").2.count (OutMsg.peerLeft m "c") =
              (exceptSt.rooms.filter
                (fun p => p.1 ≠ JSVal.str "c" ∧ "c" ∈ p.2 ∧ m ∈ p.2)).length)) :=
  ⟨by decide, by decide, by decide, by decide, by decide,
    c7_disconnect_cleanup exceptSt "c" (by decide) (by decide) (by decide)
      (by decide) (by decide)⟩

example : (handleJoin (handleConnect (handleConnect ServerState.empty "a") "b")
    "a" (.str "r")).2 = [OutMsg.roomInfo "a" []] := by decide

example :
    (handleJoin (handleJoin (handleConnect (handleConnect ServerState.empty "a") "b")
        "a" (.str "r")).1 "b" (.str "r")).2 =
      [OutMsg.peerJoined "a" "b", OutMsg.roomInfo "b" ["a"]] := by decide
